import Mathlib

/-!
Verification of the annotated-graph agent-function evaluator
(src/Ann_Graph_Handler.py) against its natural-language specification.

The Python core is shallowly embedded below:

* scalar attributes (Python floats) are modelled as rationals;
* the mutable graph becomes explicit state passing: every evaluation
  step returns the updated graph;
* Python exceptions (ValueError from int()/min(), KeyError from the
  vertex dictionary, IndexError from list indexing) become an explicit
  error type threaded through Except;
* the unbounded "while changed" loop of AgentFunction.execute is run on
  a fuel of numUnset g + 1 rounds, and executeAux_fuel proves that any
  larger fuel gives the same result, so the fuel version coincides with
  the unbounded loop (every changed round strictly decreases the number
  of unset attributes).

Python's float(...) literal parser is modelled on plain decimal
literals (optional sign, digits, optional fractional part); every rule
string appearing in the specification's scenarios is in this fragment.
Python's str.split() is modelled as splitting on whitespace and
discarding empty tokens.
-/

namespace AGH

/-- Python exceptions that the evaluator can raise: ValueError (from
int() on a non-integer token and from min() on an empty sequence),
KeyError (vertex dictionary lookup miss), IndexError (list index out
of range, including parts[0] on an empty token list). -/
inductive PyError where
  | valueError
  | keyError
  | indexError
deriving DecidableEq, Repr

/-- Mirror of the Python Vertex class: id, optional attribute, rule
text.  The in_edges and out_edges adjacency lists are derived from the
edge list (read_input_file wires in_edges of vertex t with every edge
whose target is t, in edge-insertion order), see inEdges below. -/
structure Vertex where
  id : ℤ
  attr : Option ℚ
  rule : String
deriving DecidableEq, Repr

/-- Mirror of the Python Edge class: id, source and target vertex ids,
optional attribute, rule text. -/
structure Edge where
  id : ℤ
  source : ℤ
  target : ℤ
  attr : Option ℚ
  rule : String
deriving DecidableEq, Repr

/-- Mirror of the Python AnnotatedGraph: the vertex list and the edge
list.  The vertex_map dictionary maps each vertex's id to the vertex
(last insertion wins), modelled by get_vertex below. -/
structure AnnotatedGraph where
  vertices : List Vertex
  edges : List Edge
deriving DecidableEq, Repr

/-- Decimal digit test, as used by the modelled float()/int() parsers. -/
def isDig (c : Char) : Bool := '0' ≤ c && c ≤ '9'

/-- Value of a digit string, most significant first. -/
def digitsVal (cs : List Char) : ℕ :=
  cs.foldl (fun n c => 10 * n + (c.toNat - 48)) 0

/-- Unsigned decimal literal: digits, or digits '.' digits with at
least one digit present overall; the fractional part scales by a power
of ten, giving the value as an exact rational. -/
def parseUFloat : List Char → Option ℚ := fun cs =>
  let ip := cs.takeWhile isDig
  let rest := cs.dropWhile isDig
  match rest with
  | [] => if ip.isEmpty then none else some (digitsVal ip : ℚ)
  | '.' :: fp =>
      if fp.all isDig && !(ip.isEmpty && fp.isEmpty) then
        some ((digitsVal ip : ℚ) + mkRat (digitsVal fp) (10 ^ fp.length))
      else none
  | _ => none

/-- Model of Python float(s) on plain decimal literals: optional sign
followed by an unsigned decimal literal; none models ValueError. -/
def parseFloat (s : String) : Option ℚ :=
  match s.toList with
  | '-' :: cs => (parseUFloat cs).map (fun q => -q)
  | '+' :: cs => parseUFloat cs
  | cs => parseUFloat cs

/-- Unsigned integer literal: one or more digits. -/
def parseUInt : List Char → Option ℤ := fun cs =>
  if !cs.isEmpty && cs.all isDig then some (digitsVal cs : ℤ) else none

/-- Model of Python int(s): optional sign followed by digits; none
models ValueError. -/
def parseInt (s : String) : Option ℤ :=
  match s.toList with
  | '-' :: cs => (parseUInt cs).map (fun n => -n)
  | '+' :: cs => parseUInt cs
  | cs => parseUInt cs

/-- Model of Python str.split() with no separator: split on runs of
whitespace, dropping empty tokens. -/
def pySplitAux : List Char → List Char → List (List Char)
  | [], acc => if acc.isEmpty then [] else [acc.reverse]
  | c :: cs, acc =>
      if c.isWhitespace then
        if acc.isEmpty then pySplitAux cs [] else acc.reverse :: pySplitAux cs []
      else pySplitAux cs (c :: acc)

/-- Tokens of a rule string, per Python rule.split(). -/
def pySplit (s : String) : List String :=
  (pySplitAux s.toList []).map (fun cs => String.mk cs)

/-- Result of AgentFunction._parse_rule: a float (Constant), a single
token string (the '*' and 'min' keywords, or any other lone token), or
a pair of the first token and the 1-based-to-0-based converted integer
second token (the Copy forms). -/
inductive ParsedRule where
  | const (v : ℚ)
  | single (tok : String)
  | copy (tag : String) (idx : ℤ)
deriving DecidableEq, Repr

/-- Embedding of AgentFunction._parse_rule.  float(rule) is tried
first; otherwise rule.split() is taken: exactly one token is returned
as is; with two or more tokens the first token is paired with
int(second token) - 1 (int() may raise ValueError); with zero tokens
parts[0] raises IndexError. -/
def parse_rule (rule : String) : Except PyError ParsedRule :=
  match parseFloat rule with
  | some v => .ok (.const v)
  | none =>
      match pySplit rule with
      | [p] => .ok (.single p)
      | p0 :: p1 :: _ =>
          match parseInt p1 with
          | some n => .ok (.copy p0 (n - 1))
          | none => .error .valueError
      | [] => .error .indexError

/-- Embedding of AnnotatedGraph.get_vertex: the vertex_map dictionary
lookup.  The dictionary maps v.id to v with last insertion winning; a
missing key raises KeyError. -/
def get_vertex (g : AnnotatedGraph) (i : ℤ) : Except PyError Vertex :=
  match (g.vertices.filter (fun v => v.id = i)).getLast? with
  | some v => .ok v
  | none => .error .keyError

/-- Python list indexing for the edge list (self.graph.edges[i]):
indices in 0..len-1 are direct, indices in -len..-1 count from the
end, anything else raises IndexError. -/
def pyListGet {α : Type} (l : List α) (i : ℤ) : Except PyError α :=
  let j : ℤ := if i < 0 then i + (l.length : ℤ) else i
  if 0 ≤ j then
    match l[j.toNat]? with
    | some a => .ok a
    | none => .error .indexError
  else .error .indexError

/-- In-edges of the vertex with id i: every edge whose target is i, in
edge-insertion order, exactly as read_input_file wires add_in_edge. -/
def inEdges (g : AnnotatedGraph) (i : ℤ) : List Edge :=
  g.edges.filter (fun e => e.target = i)

/-- Embedding of AgentFunction._compute_vertex_attr.  The returned
Option is the value written to vertex.attr (none means the rule's
precondition is not yet satisfied, or the parsed rule matches no
branch, and the vertex is left unset this round). -/
def compute_vertex_attr (g : AnnotatedGraph) (v : Vertex) :
    Except PyError (Option ℚ) :=
  match parse_rule v.rule with
  | .error er => .error er
  | .ok (.const q) => .ok (some q)
  | .ok (.copy t i) =>
      if t = "v" then
        match get_vertex g i with
        | .error er => .error er
        | .ok sv => .ok sv.attr
      else if t = "e" then
        match pyListGet g.edges i with
        | .error er => .error er
        | .ok se => .ok se.attr
      else .ok none
  | .ok (.single tok) =>
      if tok = "min" then
        let ins := inEdges g v.id
        if ins.all (fun d => d.attr.isSome) then
          match ins.filterMap Edge.attr with
          | [] => .error .valueError
          | q :: qs => .ok (some (qs.foldl min q))
        else .ok none
      else .ok none

/-- Embedding of AgentFunction._compute_edge_attr, on the same
conventions as compute_vertex_attr; the star rule multiplies the
source vertex's attribute by the product of that vertex's incoming
edges' attributes, accumulated left to right from 1.0. -/
def compute_edge_attr (g : AnnotatedGraph) (e : Edge) :
    Except PyError (Option ℚ) :=
  match parse_rule e.rule with
  | .error er => .error er
  | .ok (.const q) => .ok (some q)
  | .ok (.copy t i) =>
      if t = "v" then
        match get_vertex g i with
        | .error er => .error er
        | .ok sv => .ok sv.attr
      else if t = "e" then
        match pyListGet g.edges i with
        | .error er => .error er
        | .ok se => .ok se.attr
      else .ok none
  | .ok (.single tok) =>
      if tok = "*" then
        match get_vertex g e.source with
        | .error er => .error er
        | .ok sv =>
            match sv.attr with
            | none => .ok none
            | some a =>
                let ins := inEdges g sv.id
                if ins.all (fun d => d.attr.isSome) then
                  .ok (some (a * (ins.filterMap Edge.attr).foldl (fun x y => x * y) 1))
                else .ok none
      else .ok none

/-- Replace the element at position j (no-op when out of range). -/
def modifyAt {α : Type} : List α → ℕ → (α → α) → List α
  | [], _, _ => []
  | x :: xs, 0, f => f x :: xs
  | x :: xs, n + 1, f => x :: modifyAt xs n f

/-- One iteration of the vertex loop body of AgentFunction.execute at
position j: if the vertex's attr is unset, evaluate its rule against
the current graph and write the result in place; the boolean is the
"changed" contribution (attr transitioned from None). -/
def vertexStep (g : AnnotatedGraph) (j : ℕ) :
    Except PyError (AnnotatedGraph × Bool) :=
  match g.vertices[j]? with
  | none => .ok (g, false)
  | some v =>
      match v.attr with
      | some _ => .ok (g, false)
      | none =>
          match compute_vertex_attr g v with
          | .error er => .error er
          | .ok none => .ok (g, false)
          | .ok (some q) =>
              .ok ({ g with
                      vertices := modifyAt g.vertices j
                        (fun w => { w with attr := some q }) }, true)

/-- One iteration of the edge loop body of AgentFunction.execute. -/
def edgeStep (g : AnnotatedGraph) (j : ℕ) :
    Except PyError (AnnotatedGraph × Bool) :=
  match g.edges[j]? with
  | none => .ok (g, false)
  | some e =>
      match e.attr with
      | some _ => .ok (g, false)
      | none =>
          match compute_edge_attr g e with
          | .error er => .error er
          | .ok none => .ok (g, false)
          | .ok (some q) =>
              .ok ({ g with
                      edges := modifyAt g.edges j
                        (fun w => { w with attr := some q }) }, true)

/-- Sequential fold of a pass: positions are visited in ascending
order, each step sees the graph as updated by the previous steps (the
same-pass visibility of the in-place mutation), and the changed flag
accumulates. -/
def passFold (step : AnnotatedGraph → ℕ → Except PyError (AnnotatedGraph × Bool)) :
    List ℕ → AnnotatedGraph → Bool → Except PyError (AnnotatedGraph × Bool)
  | [], g, c => .ok (g, c)
  | j :: js, g, c =>
      match step g j with
      | .error er => .error er
      | .ok (g1, c1) => passFold step js g1 (c || c1)

/-- One round of AgentFunction.execute: a full pass over the vertices
in id order followed by a full pass over the edges in id order, with a
shared changed flag. -/
def roundPass (g : AnnotatedGraph) : Except PyError (AnnotatedGraph × Bool) :=
  match passFold vertexStep (List.range g.vertices.length) g false with
  | .error er => .error er
  | .ok (g1, c1) => passFold edgeStep (List.range g1.edges.length) g1 c1

/-- Number of entities whose attr is still unset. -/
def numUnset (g : AnnotatedGraph) : ℕ :=
  g.vertices.countP (fun v => v.attr.isNone) +
    g.edges.countP (fun e => e.attr.isNone)

/-- The while-changed loop of AgentFunction.execute, on fuel, also
counting the rounds performed.  A round returning changed = false ends
the loop.  executeAux_fuel below shows the result is the same for
every fuel above numUnset g, so with the fuel used by execute this is
the unbounded Python loop. -/
def executeAux : ℕ → AnnotatedGraph → Except PyError (AnnotatedGraph × ℕ)
  | 0, g => .ok (g, 0)
  | n + 1, g =>
      match roundPass g with
      | .error er => .error er
      | .ok (g1, c) =>
          if c then
            match executeAux n g1 with
            | .error er => .error er
            | .ok (g2, r) => .ok (g2, r + 1)
          else .ok (g1, 1)

/-- Embedding of AgentFunction.execute: run rounds until one makes no
new assignment.  The result carries the final graph and the number of
rounds performed (the last round is the one that made no change). -/
def execute (g : AnnotatedGraph) : Except PyError (AnnotatedGraph × ℕ) :=
  executeAux (numUnset g + 1) g

/-- The contents written by write_output_file: vertex attributes in id
order followed by edge attributes in id order; none is rendered by the
adapter as the Python text None. -/
def outputLines (g : AnnotatedGraph) : List (Option ℚ) :=
  g.vertices.map Vertex.attr ++ g.edges.map Edge.attr

/-- The main pipeline after the graph is loaded: execute, then write
the output; an uncaught exception aborts before any output. -/
def pipeline (g : AnnotatedGraph) : Except PyError (List (Option ℚ)) :=
  (execute g).map (fun p => outputLines p.1)

/-- Scenario A graph: two vertices with rules 5 and v 1, one edge from
vertex 0 to vertex 1 with rule 10. -/
def aGraph : AnnotatedGraph :=
  { vertices := [⟨0, none, "5"⟩, ⟨1, none, "v 1"⟩],
    edges := [⟨0, 0, 1, none, "10"⟩] }

/-- Scenario A graph after evaluation. -/
def aGraphFinal : AnnotatedGraph :=
  { vertices := [⟨0, some 5, "5"⟩, ⟨1, some 5, "v 1"⟩],
    edges := [⟨0, 0, 1, some 10, "10"⟩] }

/-- Scenario C graph: edge 1 has rule star; its source vertex 0 has
constant rule 2.0 and one incoming edge of constant rule 4.0. -/
def productGraph : AnnotatedGraph :=
  { vertices := [⟨0, none, "2.0"⟩, ⟨1, none, "1"⟩],
    edges := [⟨0, 1, 0, none, "4.0"⟩, ⟨1, 0, 1, none, "*"⟩] }

/-- Scenario C graph after the first pass has set vertex 0 to 2.0,
vertex 1 to 1 and edge 0 to 4.0, just before edge 1 is evaluated. -/
def productGraphMid : AnnotatedGraph :=
  { vertices := [⟨0, some 2, "2.0"⟩, ⟨1, some 1, "1"⟩],
    edges := [⟨0, 1, 0, some 4, "4.0"⟩, ⟨1, 0, 1, none, "*"⟩] }

/-- Scenario D graph: two vertices copying each other, no constant. -/
def cycleGraph : AnnotatedGraph :=
  { vertices := [⟨0, none, "v 2"⟩, ⟨1, none, "v 1"⟩], edges := [] }

/-- Scenario E graph: a single vertex whose rule string is foo 3. -/
def fooGraph : AnnotatedGraph :=
  { vertices := [⟨0, none, "foo 3"⟩], edges := [] }

/-- A vertex with rule min and zero incoming edges. -/
def minEmptyGraph : AnnotatedGraph :=
  { vertices := [⟨0, none, "min"⟩], edges := [] }

/-- Scenario B graph: vertex 0 has rule min and two incoming edges of
constants 3.0 and 7.0. -/
def minGraph : AnnotatedGraph :=
  { vertices := [⟨0, none, "min"⟩, ⟨1, none, "1"⟩],
    edges := [⟨0, 1, 0, none, "3.0"⟩, ⟨1, 1, 0, none, "7.0"⟩] }

/-- A vertex whose copy rule references vertex index 4, out of range
for its one-vertex graph. -/
def v5Graph : AnnotatedGraph :=
  { vertices := [⟨0, none, "v 5"⟩], edges := [] }

/-- A graph probing the index-token 0 forms: vertex 1 copies with the
rule e 0 (which aliases the last edge) and edge 1 copies with the rule
v 0 (which raises KeyError). -/
def zeroGraph : AnnotatedGraph :=
  { vertices := [⟨0, none, "1"⟩, ⟨1, none, "e 0"⟩],
    edges := [⟨0, 0, 1, none, "9"⟩, ⟨1, 0, 1, none, "v 0"⟩] }

/-- A one-vertex graph whose attribute is already set (stabilized). -/
def setGraph : AnnotatedGraph :=
  { vertices := [⟨0, some 1, "1"⟩], edges := [] }

/-- A one-edge graph with a set edge attribute, for probing the e 0
rule against its last (only) edge. -/
def lastEdgeGraph : AnnotatedGraph :=
  { vertices := [⟨0, some 1, "1"⟩], edges := [⟨0, 0, 0, some 9, "9"⟩] }

/-- Attribute of the vertex at position j, when there is one. -/
def vAttr (g : AnnotatedGraph) (j : ℕ) : Option ℚ :=
  match g.vertices[j]? with
  | some v => v.attr
  | none => none

/-- Attribute of the edge at position j, when there is one. -/
def eAttr (g : AnnotatedGraph) (j : ℕ) : Option ℚ :=
  match g.edges[j]? with
  | some e => e.attr
  | none => none

/-- Write-once evolution: every vertex or edge attribute that is set
in g is still set, to the same value, in g1. -/
def attrsPreserved (g g1 : AnnotatedGraph) : Prop :=
  (∀ j a, vAttr g j = some a → vAttr g1 j = some a) ∧
  (∀ j a, eAttr g j = some a → eAttr g1 j = some a)

/-- The contract of a single pass step: an unchanged step leaves the
graph untouched, a changed step only fills one unset attribute, so it
preserves set attributes and strictly decreases numUnset. -/
def StepOK (step : AnnotatedGraph → ℕ → Except PyError (AnnotatedGraph × Bool)) : Prop :=
  ∀ g j g1 c, step g j = .ok (g1, c) →
    (c = false → g1 = g) ∧
    (c = true → attrsPreserved g g1 ∧ numUnset g1 < numUnset g)

section Scratch

example : parse_rule "5" = .ok (.const 5) := rfl
example : parse_rule "v 1" = .ok (.copy "v" 0) := rfl
example : parse_rule "foo 3" = .ok (.copy "foo" 2) := rfl
example : parse_rule "min" = .ok (.single "min") := rfl
example : parse_rule "2.0" = .ok (.const 2) := by with_unfolding_all rfl
example : parse_rule "foo bar" = .error .valueError := rfl
example : parse_rule "" = .error .indexError := rfl
example : parse_rule "v 0" = .ok (.copy "v" (-1)) := rfl
example : parse_rule "e 0" = .ok (.copy "e" (-1)) := rfl

example : execute aGraph = .ok (aGraphFinal, 2) := rfl

example :
    pipeline productGraph = .ok [some 2, some 1, some 4, some 8] := by
  with_unfolding_all rfl

example : execute cycleGraph = .ok (cycleGraph, 1) := rfl
example : pipeline cycleGraph = .ok [none, none] := rfl

example : execute fooGraph = .ok (fooGraph, 1) := rfl
example : pipeline fooGraph = .ok [none] := rfl

example : execute minEmptyGraph = .error .valueError := rfl

example : pipeline minGraph = .ok [some 3, some 1, some 3, some 7] := by
  with_unfolding_all rfl

example : execute v5Graph = .error .keyError := rfl

example : execute zeroGraph = .error .keyError := rfl
example :
    compute_vertex_attr { vertices := [], edges := [⟨0, 0, 0, some 9, "9"⟩] }
      ⟨1, none, "e 0"⟩ = .ok (some 9) := rfl

end Scratch

theorem attrsPreserved_refl (g : AnnotatedGraph) : attrsPreserved g g :=
  ⟨fun _ _ h => h, fun _ _ h => h⟩

theorem attrsPreserved_trans {g g1 g2 : AnnotatedGraph}
    (h1 : attrsPreserved g g1) (h2 : attrsPreserved g1 g2) :
    attrsPreserved g g2 :=
  ⟨fun j a h => h2.1 j a (h1.1 j a h), fun j a h => h2.2 j a (h1.2 j a h)⟩

theorem modifyAt_getElem?_ne {α : Type} (l : List α) (j k : ℕ) (f : α → α)
    (h : k ≠ j) : (modifyAt l j f)[k]? = l[k]? := by
  induction l generalizing j k with
  | nil => rfl
  | cons x xs ih =>
      cases j with
      | zero =>
          cases k with
          | zero => exact absurd rfl h
          | succ m => simp [modifyAt]
      | succ n =>
          cases k with
          | zero => simp [modifyAt]
          | succ m =>
              simp only [modifyAt, List.getElem?_cons_succ]
              exact ih n m (fun hh => h (by rw [hh]))

theorem modifyAt_getElem?_self {α : Type} (l : List α) (j : ℕ) (f : α → α) :
    (modifyAt l j f)[j]? = (l[j]?).map f := by
  induction l generalizing j with
  | nil => rfl
  | cons x xs ih =>
      cases j with
      | zero => simp [modifyAt]
      | succ n => simpa only [modifyAt, List.getElem?_cons_succ] using ih n

theorem countP_modifyAt_lt {α : Type} (l : List α) (j : ℕ) (f : α → α)
    (p : α → Bool) (x : α) (hx : l[j]? = some x) (hpx : p x = true)
    (hpfx : p (f x) = false) :
    (modifyAt l j f).countP p < l.countP p := by
  induction l generalizing j with
  | nil => simp at hx
  | cons y ys ih =>
      cases j with
      | zero =>
          simp only [List.getElem?_cons_zero, Option.some.injEq] at hx
          subst hx
          simp [modifyAt, List.countP_cons, hpx, hpfx]
      | succ n =>
          simp only [List.getElem?_cons_succ] at hx
          have hlt := ih n hx
          simp only [modifyAt, List.countP_cons]
          cases hpy : p y <;> simp [hpy] <;> omega

theorem vertexStep_ok : StepOK vertexStep := by
  intro g j g1 c h
  unfold vertexStep at h
  split at h
  · simp only [Except.ok.injEq, Prod.mk.injEq] at h
    obtain ⟨rfl, hc⟩ := h
    subst hc
    exact ⟨fun _ => rfl, fun hc => Bool.noConfusion hc⟩
  · rename_i v hv
    split at h
    · simp only [Except.ok.injEq, Prod.mk.injEq] at h
      obtain ⟨rfl, hc⟩ := h
      subst hc
      exact ⟨fun _ => rfl, fun hc => Bool.noConfusion hc⟩
    · rename_i hva
      split at h
      · exact Except.noConfusion h
      · simp only [Except.ok.injEq, Prod.mk.injEq] at h
        obtain ⟨rfl, hc⟩ := h
        subst hc
        exact ⟨fun _ => rfl, fun hc => Bool.noConfusion hc⟩
      · rename_i q hcomp
        simp only [Except.ok.injEq, Prod.mk.injEq] at h
        obtain ⟨rfl, hc⟩ := h
        subst hc
        refine ⟨fun hc => Bool.noConfusion hc, fun _ => ⟨⟨?_, ?_⟩, ?_⟩⟩
        · intro k a hk
          by_cases hkj : k = j
          · subst hkj
            have hnone : vAttr g k = none := by
              unfold vAttr; rw [hv]; exact hva
            rw [hk] at hnone
            exact Option.noConfusion hnone
          · unfold vAttr at hk ⊢
            rw [show ({ g with
                vertices := modifyAt g.vertices j
                  (fun w => { w with attr := some q }) } : AnnotatedGraph).vertices =
              modifyAt g.vertices j (fun w => { w with attr := some q }) from rfl]
            rw [modifyAt_getElem?_ne g.vertices j k _ hkj]
            exact hk
        · intro k a hk
          exact hk
        · show numUnset _ < numUnset g
          unfold numUnset
          have hlt := countP_modifyAt_lt g.vertices j
            (fun w => { w with attr := some q })
            (fun w => w.attr.isNone) v hv (by simp [hva]) rfl
          exact Nat.add_lt_add_right hlt _

theorem edgeStep_ok : StepOK edgeStep := by
  intro g j g1 c h
  unfold edgeStep at h
  split at h
  · simp only [Except.ok.injEq, Prod.mk.injEq] at h
    obtain ⟨rfl, hc⟩ := h
    subst hc
    exact ⟨fun _ => rfl, fun hc => Bool.noConfusion hc⟩
  · rename_i e he
    split at h
    · simp only [Except.ok.injEq, Prod.mk.injEq] at h
      obtain ⟨rfl, hc⟩ := h
      subst hc
      exact ⟨fun _ => rfl, fun hc => Bool.noConfusion hc⟩
    · rename_i hea
      split at h
      · exact Except.noConfusion h
      · simp only [Except.ok.injEq, Prod.mk.injEq] at h
        obtain ⟨rfl, hc⟩ := h
        subst hc
        exact ⟨fun _ => rfl, fun hc => Bool.noConfusion hc⟩
      · rename_i q hcomp
        simp only [Except.ok.injEq, Prod.mk.injEq] at h
        obtain ⟨rfl, hc⟩ := h
        subst hc
        refine ⟨fun hc => Bool.noConfusion hc, fun _ => ⟨⟨?_, ?_⟩, ?_⟩⟩
        · intro k a hk
          exact hk
        · intro k a hk
          by_cases hkj : k = j
          · subst hkj
            have hnone : eAttr g k = none := by
              unfold eAttr; rw [he]; exact hea
            rw [hk] at hnone
            exact Option.noConfusion hnone
          · unfold eAttr at hk ⊢
            rw [show ({ g with
                edges := modifyAt g.edges j
                  (fun w => { w with attr := some q }) } : AnnotatedGraph).edges =
              modifyAt g.edges j (fun w => { w with attr := some q }) from rfl]
            rw [modifyAt_getElem?_ne g.edges j k _ hkj]
            exact hk
        · show numUnset _ < numUnset g
          unfold numUnset
          have hlt := countP_modifyAt_lt g.edges j
            (fun w => { w with attr := some q })
            (fun w => w.attr.isNone) e he (by simp [hea]) rfl
          exact Nat.add_lt_add_left hlt _

theorem passFold_true (step : AnnotatedGraph → ℕ → Except PyError (AnnotatedGraph × Bool))
    (js : List ℕ) : ∀ g g1 c1, passFold step js g true = .ok (g1, c1) → c1 = true := by
  induction js with
  | nil =>
      intro g g1 c1 h
      simp only [passFold, Except.ok.injEq, Prod.mk.injEq] at h
      exact h.2.symm
  | cons j js ih =>
      intro g g1 c1 h
      unfold passFold at h
      split at h
      · exact Except.noConfusion h
      · rename_i ga ca heq
        rw [Bool.true_or] at h
        exact ih ga g1 c1 h

theorem passFold_spec (step : AnnotatedGraph → ℕ → Except PyError (AnnotatedGraph × Bool))
    (hs : StepOK step) (js : List ℕ) :
    ∀ g c g1 c1, passFold step js g c = .ok (g1, c1) →
      attrsPreserved g g1 ∧ numUnset g1 ≤ numUnset g ∧
      (c1 = false → g1 = g ∧ c = false) ∧
      (c = false → c1 = true → numUnset g1 < numUnset g) := by
  induction js with
  | nil =>
      intro g c g1 c1 h
      simp only [passFold, Except.ok.injEq, Prod.mk.injEq] at h
      obtain ⟨rfl, hc⟩ := h
      subst hc
      exact ⟨attrsPreserved_refl g, Nat.le_refl _,
        fun hc => ⟨rfl, hc⟩, fun hc hc1 => absurd (hc1 ▸ hc) (by simp)⟩
  | cons j js ih =>
      intro g c g1 c1 h
      unfold passFold at h
      split at h
      · exact Except.noConfusion h
      · rename_i ga ca hst
        obtain ⟨h1, h2⟩ := hs g j ga ca hst
        cases ca with
        | false =>
            have hga : ga = g := h1 rfl
            subst hga
            rw [Bool.or_false] at h
            exact ih ga c g1 c1 h
        | true =>
            obtain ⟨hap, hlt⟩ := h2 rfl
            rw [Bool.or_true] at h
            obtain ⟨ih1, ih2, _, _⟩ := ih ga true g1 c1 h
            refine ⟨attrsPreserved_trans hap ih1,
              Nat.le_trans ih2 (Nat.le_of_lt hlt), ?_, ?_⟩
            · intro hc1
              exact absurd (passFold_true step js ga g1 c1 h)
                (by rw [hc1]; simp)
            · intro _ _
              exact Nat.lt_of_le_of_lt ih2 hlt

theorem roundPass_spec (g g1 : AnnotatedGraph) (c : Bool)
    (h : roundPass g = .ok (g1, c)) :
    attrsPreserved g g1 ∧ (c = false → g1 = g) ∧
      (c = true → numUnset g1 < numUnset g) := by
  unfold roundPass at h
  split at h
  · exact Except.noConfusion h
  · rename_i ga ca hv
    obtain ⟨v1, v2, v3, v4⟩ := passFold_spec vertexStep vertexStep_ok _ g false ga ca hv
    obtain ⟨e1, e2, e3, e4⟩ := passFold_spec edgeStep edgeStep_ok _ ga ca g1 c h
    refine ⟨attrsPreserved_trans v1 e1, ?_, ?_⟩
    · intro hc
      obtain ⟨hg1, hca⟩ := e3 hc
      obtain ⟨hga, _⟩ := v3 hca
      rw [hg1, hga]
    · intro hc
      cases hca : ca with
      | false =>
          obtain ⟨hga, _⟩ := v3 hca
          rw [← hga]
          exact e4 hca hc
      | true =>
          exact Nat.lt_of_le_of_lt e2 (v4 rfl hca)

theorem executeAux_attrs (n : ℕ) :
    ∀ g g1 r, executeAux n g = .ok (g1, r) → attrsPreserved g g1 := by
  induction n with
  | zero =>
      intro g g1 r h
      simp only [executeAux, Except.ok.injEq, Prod.mk.injEq] at h
      exact h.1 ▸ attrsPreserved_refl g
  | succ n ih =>
      intro g g1 r h
      unfold executeAux at h
      split at h
      · exact Except.noConfusion h
      · rename_i ga c hr
        have hspec := roundPass_spec g ga c hr
        cases c with
        | true =>
            rw [if_pos rfl] at h
            split at h
            · exact Except.noConfusion h
            · rename_i g2 r0 hx
              simp only [Except.ok.injEq, Prod.mk.injEq] at h
              obtain ⟨rfl, _⟩ := h
              exact attrsPreserved_trans hspec.1 (ih ga g2 r0 hx)
        | false =>
            rw [if_neg (by simp)] at h
            simp only [Except.ok.injEq, Prod.mk.injEq] at h
            obtain ⟨rfl, _⟩ := h
            exact hspec.1

theorem executeAux_fuel (n : ℕ) :
    ∀ g m, numUnset g < n → numUnset g < m → executeAux n g = executeAux m g := by
  induction n with
  | zero =>
      intro g m hn _
      exact absurd hn (Nat.not_lt_zero _)
  | succ n ih =>
      intro g m hn hm
      cases m with
      | zero => exact absurd hm (Nat.not_lt_zero _)
      | succ m0 =>
          unfold executeAux
          split
          · rfl
          · rename_i ga c hr
            cases c with
            | false => rfl
            | true =>
                have hlt := (roundPass_spec g ga true hr).2.2 rfl
                rw [ih ga m0 (Nat.lt_of_lt_of_le hlt (Nat.lt_succ_iff.mp hn))
                      (Nat.lt_of_lt_of_le hlt (Nat.lt_succ_iff.mp hm))]

theorem executeAux_fix (n : ℕ) :
    ∀ g g1 r, numUnset g < n → executeAux n g = .ok (g1, r) →
      roundPass g1 = .ok (g1, false) ∧ 1 ≤ r ∧ r ≤ numUnset g + 1 := by
  induction n with
  | zero =>
      intro g g1 r hn
      exact absurd hn (Nat.not_lt_zero _)
  | succ n ih =>
      intro g g1 r hn h
      unfold executeAux at h
      split at h
      · exact Except.noConfusion h
      · rename_i ga c hr
        cases c with
        | false =>
            rw [if_neg (by simp)] at h
            simp only [Except.ok.injEq, Prod.mk.injEq] at h
            obtain ⟨rfl, hrr⟩ := h
            have hga : ga = g := (roundPass_spec g ga false hr).2.1 rfl
            subst hga
            exact ⟨hr, by omega, by omega⟩
        | true =>
            rw [if_pos rfl] at h
            split at h
            · exact Except.noConfusion h
            · rename_i g2 r0 hx
              simp only [Except.ok.injEq, Prod.mk.injEq] at h
              obtain ⟨rfl, hrr⟩ := h
              have hlt := (roundPass_spec g ga true hr).2.2 rfl
              obtain ⟨hfix, hr1, hrb⟩ := ih ga g2 r0 (by omega) hx
              exact ⟨hfix, by omega, by omega⟩

theorem executeAux_of_fix (g : AnnotatedGraph) (n : ℕ)
    (hfix : roundPass g = .ok (g, false)) :
    executeAux (n + 1) g = .ok (g, 1) := by
  unfold executeAux
  split
  · rename_i er heq
    rw [hfix] at heq
    exact Except.noConfusion heq
  · rename_i ga c heq
    rw [hfix] at heq
    simp only [Except.ok.injEq, Prod.mk.injEq] at heq
    obtain ⟨rfl, hc⟩ := heq
    subst hc
    rw [if_neg (by simp)]

theorem pyListGet_neg_one {α : Type} (l : List α) (h : l ≠ []) :
    pyListGet l (-1) = .ok (l.getLast h) := by
  have hlen : 0 < l.length := List.length_pos.mpr h
  simp only [pyListGet]
  rw [if_pos (show (-1 : ℤ) < 0 by decide)]
  rw [if_pos (show (0 : ℤ) ≤ -1 + (l.length : ℤ) by omega)]
  have ht : ((-1 : ℤ) + (l.length : ℤ)).toNat = l.length - 1 := by omega
  rw [ht, List.getElem?_eq_getElem (by omega), List.getLast_eq_getElem]

theorem get_vertex_not_found (g : AnnotatedGraph) (i : ℤ)
    (h : ∀ w ∈ g.vertices, w.id ≠ i) : get_vertex g i = .error .keyError := by
  unfold get_vertex
  rw [List.filter_eq_nil_iff.mpr (by intro a ha; simpa using h a ha)]
  rfl

/-- Claim C1 counterexample: a vertex rule string foo 3 does NOT yield
a RuleParseError at load: parsing succeeds (giving the inert pair
(foo, 2)), evaluation completes without any error, and an output file
IS produced, with the vertex unresolved. -/
theorem rule_parse_error_counterexample :
    parse_rule "foo 3" = .ok (.copy "foo" 2) ∧ pipeline fooGraph = .ok [none] :=
  ⟨rfl, rfl⟩

/-- Claim C1 (amended): the code has no load-time rule validation; a
rule is re-parsed at every evaluation attempt.  A malformed rule such
as foo 3 parses to a copy pair with an unknown tag that matches no
rule kind and is silently skipped every round, leaving the entity
unresolved while execution terminates normally and the output file is
still written; a rule whose second token is not an integer (foo bar)
instead raises an uncaught ValueError in the middle of evaluation; the
keyword rules attached to the wrong entity kind (star on a vertex, min
on an edge) are silently ignored rather than rejected. -/
theorem malformed_rule_lazy_behavior :
    parse_rule "foo 3" = .ok (.copy "foo" 2) ∧
    execute fooGraph = .ok (fooGraph, 1) ∧
    pipeline fooGraph = .ok [none] ∧
    parse_rule "foo bar" = .error .valueError ∧
    compute_vertex_attr fooGraph ⟨0, none, "*"⟩ = .ok none ∧
    compute_edge_attr fooGraph ⟨0, 0, 0, none, "min"⟩ = .ok none :=
  ⟨rfl, rfl, rfl, rfl, rfl, rfl⟩

/-- Claim C2 counterexample: on the two-vertex copy cycle the loop
stops after a single round (the first round already makes no new
assignment, far below the claimed NV+NE+1 bound of 3) and no
NonConvergence condition is reported: execution returns normally and
the output is written with both vertices unresolved. -/
theorem nonconvergence_report_counterexample :
    execute cycleGraph = .ok (cycleGraph, 1) ∧
    pipeline cycleGraph = .ok [none, none] :=
  ⟨rfl, rfl⟩

/-- Claim C2 (amended): the evaluation loop repeats rounds only until
a round makes no new assignment; there is no explicit round-bound
check and no NonConvergence report.  The final round is always a
fixpoint round, the number of rounds never exceeds numUnset g + 1,
which is at most NV + NE + 1, and on the two-vertex cycle the loop
stops after one round with both vertices simply left unset in the
output. -/
theorem fixpoint_loop_behavior (g g1 : AnnotatedGraph) (r : ℕ)
    (h : execute g = .ok (g1, r)) :
    roundPass g1 = .ok (g1, false) ∧ r ≤ numUnset g + 1 ∧
    numUnset g ≤ g.vertices.length + g.edges.length ∧
    execute cycleGraph = .ok (cycleGraph, 1) ∧
    pipeline cycleGraph = .ok [none, none] := by
  obtain ⟨hfix, _, hb⟩ :=
    executeAux_fix (numUnset g + 1) g g1 r (Nat.lt_succ_self _) h
  exact ⟨hfix, hb,
    Nat.add_le_add (List.countP_le_length _) (List.countP_le_length _), rfl, rfl⟩

theorem fixpoint_loop_behavior_witness :
    roundPass cycleGraph = .ok (cycleGraph, false) :=
  (fixpoint_loop_behavior cycleGraph cycleGraph 1 rfl).1

/-- Claim C3 counterexample: the empty-minimum branch IS reached: on a
graph whose single vertex has rule min and no incoming edges, the
vacuous all() guard passes and evaluation attempts min() over an empty
sequence, so execute raises ValueError instead of flagging a
NonConvergence/definition gap. -/
theorem min_empty_reached_counterexample :
    execute minEmptyGraph = .error .valueError := rfl

/-- Claim C3 (amended): for every graph and every vertex whose rule is
min and whose incoming-edge list is empty, the all() guard over the
empty list is vacuously true and the evaluation takes the minimum of
an empty sequence, raising ValueError mid-evaluation (it is not
treated as an unresolved entity, nor flagged at load). -/
theorem min_empty_in_edges_error (g : AnnotatedGraph) (v : Vertex)
    (hr : v.rule = "min") (hin : inEdges g v.id = []) :
    compute_vertex_attr g v = .error .valueError ∧
    execute minEmptyGraph = .error .valueError := by
  refine ⟨?_, rfl⟩
  have h1 : compute_vertex_attr g v =
      (if (inEdges g v.id).all (fun d => d.attr.isSome) then
        match (inEdges g v.id).filterMap Edge.attr with
        | [] => .error .valueError
        | q :: qs => .ok (some (qs.foldl min q))
      else .ok none) := by
    unfold compute_vertex_attr
    rw [hr]
    with_unfolding_all rfl
  rw [h1, hin]
  rfl

theorem min_empty_in_edges_error_witness :
    compute_vertex_attr minEmptyGraph ⟨0, none, "min"⟩ = .error .valueError :=
  (min_empty_in_edges_error minEmptyGraph ⟨0, none, "min"⟩ rfl rfl).1

/-- Claim C4 counterexample: an out-of-range Copy reference is not
detected at load time: on a one-vertex graph whose rule is v 5 the
rule parses successfully (to the copy pair (v, 4), no InvalidReference
anywhere), and the out-of-range vertex lookup then happens during
evaluation, where execute fails with the dictionary KeyError. -/
theorem load_time_validation_counterexample :
    parse_rule "v 5" = .ok (.copy "v" 4) ∧
    execute v5Graph = .error .keyError :=
  ⟨rfl, rfl⟩

/-- Claim C4 (amended): rule references are never validated at
construction or parse time; they are resolved lazily at each
evaluation attempt, so a CopyVertex reference whose index misses the
vertex dictionary raises KeyError during evaluation and a CopyEdge
reference whose index is outside Python list range raises IndexError
during evaluation. -/
theorem lazy_reference_error (g : AnnotatedGraph) (v : Vertex) (e : Edge)
    (i k : ℤ)
    (hv : parse_rule v.rule = .ok (.copy "v" i))
    (hgv : get_vertex g i = .error .keyError)
    (he : parse_rule e.rule = .ok (.copy "e" k))
    (hge : pyListGet g.edges k = .error .indexError) :
    compute_vertex_attr g v = .error .keyError ∧
    compute_edge_attr g e = .error .indexError ∧
    execute v5Graph = .error .keyError := by
  refine ⟨?_, ?_, rfl⟩
  · have h1 : compute_vertex_attr g v =
        (match get_vertex g i with
        | .error er => .error er
        | .ok sv => .ok sv.attr) := by
      unfold compute_vertex_attr
      rw [hv]
      with_unfolding_all rfl
    rw [h1, hgv]
  · have h1 : compute_edge_attr g e =
        (match pyListGet g.edges k with
        | .error er => .error er
        | .ok se => .ok se.attr) := by
      unfold compute_edge_attr
      rw [he]
      with_unfolding_all rfl
    rw [h1, hge]

theorem lazy_reference_error_witness :
    compute_vertex_attr v5Graph ⟨0, none, "v 5"⟩ = .error .keyError ∧
    compute_edge_attr v5Graph ⟨0, 0, 0, none, "e 5"⟩ = .error .indexError :=
  ⟨(lazy_reference_error v5Graph ⟨0, none, "v 5"⟩ ⟨0, 0, 0, none, "e 5"⟩
      4 4 rfl rfl rfl rfl).1,
   (lazy_reference_error v5Graph ⟨0, none, "v 5"⟩ ⟨0, 0, 0, none, "e 5"⟩
      4 4 rfl rfl rfl rfl).2.1⟩

/-- Claim C5: write-once monotonicity.  Both over a single round and
over the whole evaluation loop (any fuel), every vertex or edge
attribute that is set is never altered afterwards: it survives with
the same value, because the loop only ever evaluates entities whose
attribute is still unset. -/
theorem write_once_invariant (g g1 : AnnotatedGraph) (c : Bool) (n r : ℕ) :
    (roundPass g = .ok (g1, c) → attrsPreserved g g1) ∧
    (executeAux n g = .ok (g1, r) → attrsPreserved g g1) :=
  ⟨fun h => (roundPass_spec g g1 c h).1,
   fun h => executeAux_attrs n g g1 r h⟩

theorem write_once_invariant_witness : attrsPreserved setGraph setGraph :=
  (write_once_invariant setGraph setGraph false 1 1).1 rfl

/-- Claim C6: Product rule semantics.  For an edge with rule star
whose source vertex lookup succeeds, the attribute is computed exactly
when the source attribute is set and all of the source vertex's
incoming edges have set attributes, in which case it is the source
attribute times the left fold of multiplication over the incoming
attributes started at 1 (so the empty product is 1); otherwise no
value is written.  Scenario C: source constant 2.0 with one incoming
constant 4.0 gives the star edge 8.0. -/
theorem product_rule_semantics (g : AnnotatedGraph) (e : Edge) (sv : Vertex)
    (hr : e.rule = "*") (hs : get_vertex g e.source = .ok sv) :
    (∀ a, sv.attr = some a → (∀ d ∈ inEdges g sv.id, d.attr.isSome) →
      compute_edge_attr g e =
        .ok (some (a *
          ((inEdges g sv.id).filterMap Edge.attr).foldl (fun x y => x * y) 1))) ∧
    (sv.attr = none → compute_edge_attr g e = .ok none) ∧
    (∀ a, sv.attr = some a → ¬ (∀ d ∈ inEdges g sv.id, d.attr.isSome) →
      compute_edge_attr g e = .ok none) ∧
    pipeline productGraph = .ok [some 2, some 1, some 4, some 8] := by
  have h1 : compute_edge_attr g e =
      (match get_vertex g e.source with
      | .error er => .error er
      | .ok sv =>
          match sv.attr with
          | none => .ok none
          | some a =>
              if (inEdges g sv.id).all (fun d => d.attr.isSome) then
                .ok (some (a *
                  ((inEdges g sv.id).filterMap Edge.attr).foldl (fun x y => x * y) 1))
              else .ok none) := by
    unfold compute_edge_attr
    rw [hr]
    with_unfolding_all rfl
  have h2 : compute_edge_attr g e =
      (match sv.attr with
      | none => .ok none
      | some a =>
          if (inEdges g sv.id).all (fun d => d.attr.isSome) then
            .ok (some (a *
              ((inEdges g sv.id).filterMap Edge.attr).foldl (fun x y => x * y) 1))
          else .ok none) := by
    rw [h1, hs]
  refine ⟨?_, ?_, ?_, by with_unfolding_all rfl⟩
  · intro a ha hall
    rw [h2, ha]
    show (if (inEdges g sv.id).all (fun d => d.attr.isSome) then
        (.ok (some (a *
          ((inEdges g sv.id).filterMap Edge.attr).foldl (fun x y => x * y) 1)) :
            Except PyError (Option ℚ))
      else .ok none) = _
    rw [if_pos (List.all_eq_true.mpr hall)]
  · intro hn
    rw [h2, hn]
  · intro a ha hnall
    rw [h2, ha]
    show (if (inEdges g sv.id).all (fun d => d.attr.isSome) then
        (.ok (some (a *
          ((inEdges g sv.id).filterMap Edge.attr).foldl (fun x y => x * y) 1)) :
            Except PyError (Option ℚ))
      else .ok none) = _
    rw [if_neg (fun hb => hnall (List.all_eq_true.mp hb))]

theorem product_rule_semantics_witness :
    compute_edge_attr productGraphMid ⟨1, 0, 1, none, "*"⟩ = .ok (some 8) := by
  rw [(product_rule_semantics productGraphMid ⟨1, 0, 1, none, "*"⟩
    ⟨0, some 2, "2.0"⟩ rfl rfl).1 2 rfl (by decide)]
  with_unfolding_all rfl

/-- Claim C7: evaluation order and same-pass visibility, witnessed by
Scenario A.  One single round (vertices in ascending id order, then
edges) already assigns all three attributes: vertex 1's copy rule v 1
sees the value written to vertex 0 earlier in the very same pass, and
execute then needs only a second, fixpoint-confirming round, giving
the attributes 5.0, 5.0, 10.0. -/
theorem scenario_a_evaluation :
    roundPass aGraph = .ok (aGraphFinal, true) ∧
    execute aGraph = .ok (aGraphFinal, 2) ∧
    pipeline aGraph = .ok [some 5, some 5, some 10] :=
  ⟨rfl, rfl, rfl⟩

/-- Claim C8: bounded termination.  The loop's result is independent
of any fuel beyond numUnset g (so the unbounded Python loop
terminates), every round reporting a change strictly decreases the
number of unset attributes, and the number of rounds performed is at
most numUnset g + 1, which is bounded by NV + NE + 1. -/
theorem bounded_termination (g : AnnotatedGraph) (n : ℕ)
    (hn : numUnset g < n) :
    executeAux n g = execute g ∧
    (∀ g1, roundPass g = .ok (g1, true) → numUnset g1 < numUnset g) ∧
    (∀ g1 r, execute g = .ok (g1, r) →
      r ≤ numUnset g + 1 ∧
      numUnset g ≤ g.vertices.length + g.edges.length) :=
  ⟨executeAux_fuel n g (numUnset g + 1) hn (Nat.lt_succ_self _),
   fun g1 h => (roundPass_spec g g1 true h).2.2 rfl,
   fun g1 r h =>
     ⟨(executeAux_fix (numUnset g + 1) g g1 r (Nat.lt_succ_self _) h).2.2,
      Nat.add_le_add (List.countP_le_length _) (List.countP_le_length _)⟩⟩

theorem bounded_termination_witness :
    executeAux 4 aGraph = execute aGraph :=
  (bounded_termination aGraph 4 (by decide)).1

/-- Claim C9: idempotence.  If execute succeeds on g with final graph
g1, then running execute again on g1 performs zero writes (the result
graph is g1 itself, unchanged) and terminates after a single round. -/
theorem execute_idempotent (g g1 : AnnotatedGraph) (r : ℕ)
    (h : execute g = .ok (g1, r)) : execute g1 = .ok (g1, 1) := by
  have hfix :=
    (executeAux_fix (numUnset g + 1) g g1 r (Nat.lt_succ_self _) h).1
  exact executeAux_of_fix g1 (numUnset g1) hfix

theorem execute_idempotent_witness : execute aGraphFinal = .ok (aGraphFinal, 1) :=
  execute_idempotent aGraph aGraphFinal 2 rfl

/-- Claim C10: the source index token 0 parses to internal index -1
(1-based conversion), and the two copy forms then behave
asymmetrically: an e 0 rule reads the attribute of the LAST edge via
Python negative list indexing (silently aliasing edge NE-1, provided
the graph has an edge), while a v 0 rule misses the id-keyed vertex
dictionary and raises KeyError. -/
theorem copy_index_zero_asymmetry (g : AnnotatedGraph) (v : Vertex) (e : Edge)
    (hne : g.edges ≠ []) (hv : v.rule = "e 0") (he : e.rule = "v 0")
    (hid : ∀ w ∈ g.vertices, 0 ≤ w.id) :
    parse_rule "e 0" = .ok (.copy "e" (-1)) ∧
    compute_vertex_attr g v = .ok (g.edges.getLast hne).attr ∧
    compute_edge_attr g e = .error .keyError := by
  refine ⟨rfl, ?_, ?_⟩
  · have h1 : compute_vertex_attr g v =
        (match pyListGet g.edges (-1) with
        | .error er => .error er
        | .ok se => .ok se.attr) := by
      unfold compute_vertex_attr
      rw [hv]
      with_unfolding_all rfl
    rw [h1, pyListGet_neg_one g.edges hne]
  · have h1 : compute_edge_attr g e =
        (match get_vertex g (-1) with
        | .error er => .error er
        | .ok sv => .ok sv.attr) := by
      unfold compute_edge_attr
      rw [he]
      with_unfolding_all rfl
    rw [h1, get_vertex_not_found g (-1)
      (fun w hw => by have := hid w hw; omega)]

theorem copy_index_zero_asymmetry_witness :
    compute_vertex_attr lastEdgeGraph ⟨1, none, "e 0"⟩ = .ok (some 9) ∧
    compute_edge_attr lastEdgeGraph ⟨1, 0, 0, none, "v 0"⟩ = .error .keyError := by
  have h := copy_index_zero_asymmetry lastEdgeGraph ⟨1, none, "e 0"⟩
    ⟨1, 0, 0, none, "v 0"⟩ (by simp [lastEdgeGraph]) rfl rfl (by decide)
  exact ⟨by rw [h.2.1]; rfl, h.2.2⟩

end AGH
